import Mathlib

/-!
Shallow embedding of the two Sublime Text plugins in this repository:
`EasyMotion/easy_motion.py` (jump-target generation, grouping, paging and
label resolution) and `ExpandTabsOnSave/ExpandTabsOnSave.py` (on-save hook).

Host objects (`sublime.Region`, the view, settings, the `re` module) are
modelled just far enough to give the plugin code a semantics: a region is a
pair of offsets with `begin`/`end` the min/max, matching for the
single-character regexps the plugin builds is literal character comparison
(case-folded when the `(?i)` flag is present), and commands dispatched to the
host are recorded as values.
-/

/-- Model of `sublime.Region(a, b)`: a pair of text offsets.  In the host API
`begin()` is the smaller and `end()` the larger of the two. -/
structure Region where
  a : Nat
  b : Nat
deriving DecidableEq

/-- `sublime.Region.begin()`: the lower offset. -/
def Region.begin (r : Region) : Nat := min r.a r.b

/-- `sublime.Region.end()`: the upper offset (`end` is a Lean keyword). -/
def Region.end_ (r : Region) : Nat := max r.a r.b

/-- `sublime.Region.contains(region)`: the argument region lies entirely
within this one. -/
def Region.contains (r s : Region) : Bool :=
  decide (r.begin ≤ s.begin) && decide (s.end_ ≤ r.end_)

/-- A jump group: the Python code builds a `dict` mapping placeholder
characters to regions; insertion order is assignment order, so we model it as
an association list. -/
abbrev JumpGroup := List (Char × Region)

/-- The flattening of `itertools.zip_longest(before, after)` used at
easy_motion.py line 58: pairs element-wise, padding the shorter list with
`None`, then the comprehension drops the `None`s — i.e. strict alternation
while both lists are non-empty, then the tail of the longer list. -/
def interleave : List Region → List Region → List Region
  | [], ys => ys
  | x :: xs, [] => x :: interleave xs []
  | x :: xs, y :: ys => x :: y :: interleave xs ys

/-- `JumpGroupGenerator.interleave_jump_targets_from_cursor` (lines 42–58):
the loop splits `all_jump_targets` around the first selection — targets whose
`begin()` is strictly below `sel.begin()` are pushed onto the front of
`before` (so the nearest ends up first), targets strictly beyond `sel.end()`
are appended to `after`, everything else is dropped — and the two lists are
then interleaved. -/
def interleave_jump_targets_from_cursor (all_jump_targets : List Region)
    (sel : Region) : List Region :=
  let sel_begin := sel.begin
  let sel_end := sel.end_
  let split := all_jump_targets.foldl
    (fun (acc : List Region × List Region) target =>
      if target.begin < sel_begin then (target :: acc.1, acc.2)
      else if target.begin > sel_end then (acc.1, acc.2 ++ [target])
      else acc)
    ([], [])
  interleave split.1 split.2

/-- `REGEX_ESCAPE_CHARS` (easy_motion.py line 7). -/
def REGEX_ESCAPE_CHARS : String := "\\+*()[]{}^$?|:].,"

/-- `JumpGroupGenerator.determine_re_flags` (lines 34–40).  Note the `elif`
branch: the case-insensitivity flag `(?i)` is produced when `case_sensitive`
is true. -/
def determine_re_flags (case_sensitive : Bool) (character : String) : String :=
  if character == "enter" then "(?m)"
  else if case_sensitive then "(?i)"
  else ""

/-- `JumpGroupGenerator.target_regexp` (lines 128–135).  The Python test
`REGEX_ESCAPE_CHARS.find(character) >= 0` is substring containment, which for
the single-character targets the command supplies is character membership. -/
def target_regexp (case_sensitive : Bool) (character : String) : String :=
  let re_flags := determine_re_flags case_sensitive character
  if REGEX_ESCAPE_CHARS.data.any (fun ch => ch.toString == character) then
    re_flags ++ "\\" ++ character
  else if character == "enter" then
    re_flags ++ "(?=^).|.(?=$)"
  else
    re_flags ++ character

/-- Model of the Python `re` module restricted to the patterns
`target_regexp` builds for an ordinary (non-`enter`) target character: a
single literal character, optionally preceded by `(?i)`.  A text character
matches when it equals the target, up to case folding when the
case-insensitivity flag is in force.  (Escaping a metacharacter with `\\`
also makes it match literally, so the escaped and unescaped patterns share
this semantics.) -/
def re_char_matches (ci : Bool) (target ch : Char) : Bool :=
  if ci then ch.toLower == target.toLower else ch == target

/-- `JumpGroupGenerator.region_list_contains_region` (lines 115–119): the
early-returning loop is `List.any`. -/
def region_list_contains_region (region_list : List Region) (region : Region) :
    Bool :=
  region_list.any (fun element_region => element_region.contains region)

/-- `JumpGroupGenerator.find_all_jump_targets_in_visible_region`
(lines 99–113): scan the visible text with the target regexp (`re.finditer`
yields match starts in ascending position order, here `List.range`), shift
each start by the visible region's begin offset, build the one-character
region, and keep it unless a folded region contains it.  The
case-insensitivity of the scan is exactly the presence of the `(?i)` flag in
`determine_re_flags`'s result. -/
def find_all_jump_targets_in_visible_region (visible_text : List Char)
    (visible_region_begin : Nat) (folded_regions : List Region)
    (case_sensitive : Bool) (character : Char) : List Region :=
  let ci := determine_re_flags case_sensitive character.toString == "(?i)"
  (List.range visible_text.length).filterMap fun char_at =>
    if re_char_matches ci character (visible_text.getD char_at default) then
      let char_point := char_at + visible_region_begin
      let char_region : Region := ⟨char_point, char_point + 1⟩
      if region_list_contains_region folded_regions char_region then none
      else some char_region
    else none

/-- The inner `for placeholder_char in self.placeholder_chars` loop of
`create_jump_target_groups` (lines 66–71), with `jump_target_index`
abstracted as the remaining suffix of `interleaved_jump_targets`: assign each
placeholder character to the next remaining target, stopping when either
runs out; return the group and the targets still unassigned. -/
def fillGroup : List Char → List Region → JumpGroup × List Region
  | [], ts => ([], ts)
  | _ :: _, [] => ([], [])
  | c :: cs, t :: ts =>
    let rest := fillGroup cs ts
    ((c, t) :: rest.1, rest.2)

/-- The outer `while self.has_next_jump_target()` loop of
`create_jump_target_groups` (lines 60–75), fuel-indexed because Python's
loop need not terminate: each iteration fills one group from the remaining
targets; `none` means the fuel ran out before the loop condition became
false (with an empty placeholder alphabet and targets remaining, the index
never advances, so no finite fuel suffices). -/
def groupsLoopFuel (placeholder_chars : List Char) :
    Nat → List Region → Option (List JumpGroup)
  | 0, ts => if ts.isEmpty then some [] else none
  | fuel + 1, ts =>
    if ts.isEmpty then some []
    else
      let step := fillGroup placeholder_chars ts
      (groupsLoopFuel placeholder_chars fuel step.2).map (step.1 :: ·)

/-- `JumpGroupGenerator.create_jump_target_groups` (lines 60–78).  With a
non-empty alphabet every iteration consumes at least one target, so
`ts.length` fuel always suffices; `none` reports the non-terminating case. -/
def create_jump_target_groups (placeholder_chars : List Char)
    (interleaved_jump_targets : List Region) : Option (List JumpGroup) :=
  groupsLoopFuel placeholder_chars interleaved_jump_targets.length
    interleaved_jump_targets

/-- The paging state of `JumpGroupGenerator`: the fields `next` and
`previous` (lines 83–97) read and write — the group list and the current
index.  `__init__` (line 32) starts the index at `-1`, one before the first
group, so the index is an integer, not a natural number. -/
structure GroupCursor where
  jump_target_groups : List JumpGroup
  jump_target_group_index : Int

/-- `JumpGroupGenerator.next` (lines 83–89): increment the index; if it is
now past the last group or below zero, reset it to 0; return the group at
the new index (`none` models the `IndexError` on an empty group list). -/
def GroupCursor.next (s : GroupCursor) : GroupCursor × Option JumpGroup :=
  let i := s.jump_target_group_index + 1
  let i :=
    if (s.jump_target_groups.length : Int) ≤ i ∨ i < 0 then 0 else i
  (⟨s.jump_target_groups, i⟩, s.jump_target_groups[i.toNat]?)

/-- `JumpGroupGenerator.previous` (lines 91–97): decrement the index; if it
is now below zero or past the last group, reset it to the last index; return
the group at the new index. -/
def GroupCursor.previous (s : GroupCursor) : GroupCursor × Option JumpGroup :=
  let i := s.jump_target_group_index - 1
  let i :=
    if i < 0 ∨ (s.jump_target_groups.length : Int) ≤ i then
      (s.jump_target_groups.length : Int) - 1
    else i
  (⟨s.jump_target_groups, i⟩, s.jump_target_groups[i.toNat]?)

/-- The cursor state after `n` calls of `next()`. -/
def stepNextN (s : GroupCursor) : Nat → GroupCursor
  | 0 => s
  | n + 1 => (stepNextN s n).next.1

/-- The group returned by the `(n+1)`-th call of `next()` from state `s`. -/
def nthNextResult (s : GroupCursor) (n : Nat) : Option JumpGroup :=
  (stepNextN s n).next.2

/-- The view state the plugin reads and writes: the visible text (as a
character list), the buffer offset at which the visible region starts, the
folded regions, the selection list, and the two per-view settings flags the
session toggles. -/
structure ViewModel where
  visible_text : List Char
  visible_region_begin : Nat
  folded_regions : List Region
  sel : List Region
  easy_motion_mode : Bool
  command_mode : Bool
deriving DecidableEq

/-- The constructed `JumpGroupGenerator` (easy_motion.py lines 24–32).
`jump_target_index` is omitted: after `__init__` it equals the length of
`interleaved_jump_targets` and is never read again. -/
structure JumpGroupGenerator where
  case_sensitive : Bool
  placeholder_chars : List Char
  all_jump_targets : List Region
  interleaved_jump_targets : List Region
  jump_target_groups : List JumpGroup
  jump_target_group_index : Int
deriving DecidableEq

/-- `JumpGroupGenerator.__init__` (lines 24–32): scan the visible region,
interleave around the first selection (`view.sel()[0]` raises on an empty
selection list, modelled as `none`), group, and start the group index at
`-1`.  `none` also models the non-terminating grouping loop (empty
alphabet with targets remaining). -/
def JumpGroupGenerator.init (view : ViewModel) (character : Char)
    (placeholder_chars : List Char) (case_sensitive : Bool) :
    Option JumpGroupGenerator :=
  match view.sel with
  | [] => none
  | sel0 :: _ =>
    let all_jump_targets := find_all_jump_targets_in_visible_region
      view.visible_text view.visible_region_begin view.folded_regions
      case_sensitive character
    let interleaved := interleave_jump_targets_from_cursor all_jump_targets sel0
    match create_jump_target_groups placeholder_chars interleaved with
    | none => none
    | some groups =>
      some ⟨case_sensitive, placeholder_chars, all_jump_targets, interleaved,
        groups, -1⟩

/-- The module-level globals of easy_motion.py (lines 12–16) that a jump
request writes. -/
structure GlobalState where
  jump_group_generator : Option JumpGroupGenerator
  select_text : Bool
  command_mode_was : Bool
  jump_target_scope : String
deriving DecidableEq

/-- What a run of `EasyMotionCommand.run` produced: the status messages
emitted in order, the globals and view settings after the call, and whether
`show_jump_group` was dispatched (i.e. the session started). -/
structure RunOutcome where
  status_messages : List String
  globals : GlobalState
  view : ViewModel
  show_jump_group_dispatched : Bool
deriving DecidableEq

/-- `EasyMotionCommand.run` (lines 151–168) together with
`start_easy_motion`/`activate_mode` (lines 170–182): emit the "Jump to"
status message, overwrite the `SELECT_TEXT` and `JUMP_TARGET_SCOPE` globals,
construct the generator into `JUMP_GROUP_GENERATOR`, then — only if it
produced at least one group — set `easy_motion_mode`, save and clear
`command_mode`, and dispatch `show_jump_group`; otherwise emit the
"unable to find" status message.  `none` models the generator constructor
not returning. -/
def EasyMotionCommand.run (view : ViewModel) (character : Char)
    (select_text : Bool) (placeholder_chars : List Char)
    (jump_target_scope : String) (case_sensitive : Bool)
    (globals : GlobalState) : Option RunOutcome :=
  let msg_start := "EasyMotion: Jump to " ++ character.toString
  let globals := { globals with
    select_text := select_text, jump_target_scope := jump_target_scope }
  match JumpGroupGenerator.init view character placeholder_chars
      case_sensitive with
  | none => none
  | some generator =>
    let globals := { globals with jump_group_generator := some generator }
    if 0 < generator.jump_target_groups.length then
      let command_mode_was := view.command_mode
      let view := { view with easy_motion_mode := true }
      let view :=
        if command_mode_was then { view with command_mode := false } else view
      some ⟨[msg_start], { globals with command_mode_was := command_mode_was },
        view, true⟩
    else
      some ⟨[msg_start,
          "EasyMotion: unable to find any instances of " ++ character.toString
            ++ " in visible region"],
        globals, view, false⟩

/-- `JumpTo.winning_selection_from` (lines 244–258), with the globals it
reads as arguments.  Python's `selection in dict` / `dict[selection]` pair is
association-list lookup.  When the label is absent the function falls through
and returns `None`; when `SELECT_TEXT` is set the `for` loop returns on the
first selection (or falls through to `None` if there is none); otherwise the
result is the region collapsed to the winning region's begin. -/
def winning_selection_from (current_jump_group : JumpGroup)
    (select_text : Bool) (sel : List Region) (selection : Char) :
    Option Region :=
  match current_jump_group.lookup selection with
  | none => none
  | some winning_region =>
    if select_text then
      match sel with
      | [] => none
      | current_selection :: _ =>
        if winning_region.begin < current_selection.begin then
          some ⟨current_selection.end_, winning_region.begin⟩
        else
          some ⟨current_selection.begin, winning_region.end_⟩
    else
      some ⟨winning_region.begin, winning_region.begin⟩

/-- `JumpTo.jump_to_winning_selection` (lines 272–274): when a winning
selection exists, dispatch the `jump_to_winning_selection` text command with
its `begin` and `end`; otherwise do nothing, leaving the cursor where it
was. -/
def jump_to_winning_selection (winning_selection : Option Region) :
    Option (Nat × Nat) :=
  winning_selection.map fun r => (r.begin, r.end_)

/-- A Python value a view setting can hold, as far as
`ExpandTabsOnSave.on_pre_save` is concerned: missing (`None`), a boolean, an
integer, or a string. -/
inductive SettingValue where
  | absent : SettingValue
  | pybool : Bool → SettingValue
  | pyint : Int → SettingValue
  | pystr : String → SettingValue
deriving DecidableEq

/-- Model of the Python comparison `value == 1` for a setting value:
`True == 1` and `1 == 1` hold; `False`, any other integer, any string and
`None` compare unequal to `1`. -/
def pyEqOne : SettingValue → Bool
  | .pybool truth => truth
  | .pyint n => n == 1
  | _ => false

/-- `ExpandTabsOnSave.on_pre_save` (ExpandTabsOnSave.py lines 10–12), with
the `expand_tabs_on_save` view setting as argument and the window commands
it runs as result: run `expand_tabs` exactly when the setting compares equal
to `1`. -/
def ExpandTabsOnSave.on_pre_save (expand_tabs_on_save : SettingValue) :
    List String :=
  if pyEqOne expand_tabs_on_save then ["expand_tabs"] else []

/-- A view showing the text `"xyz"` with the cursor collapsed at offset 0,
no folds, and both mode flags off: a jump to `'a'` finds no matches. -/
def viewNoMatches : ViewModel := ⟨"xyz".data, 0, [], [⟨0, 0⟩], false, false⟩

/-- A pre-existing global state with the select-text flag still set from an
earlier session. -/
def globalsBefore : GlobalState := ⟨none, true, false, "string"⟩

theorem Region.begin_le_end_ (r : Region) : r.begin ≤ r.end_ := min_le_max

/-- The splitting loop of `interleave_jump_targets_from_cursor`, run from an
arbitrary accumulator: `before` collects the targets below `sb` in reverse
scan order, `after` collects the targets above `se` in scan order.  The
bound `sb ≤ se` reflects `begin() ≤ end()` and makes the two `if` branches
match the two filters. -/
theorem foldl_split_eq (sb se : Nat) (hbe : sb ≤ se) (ts : List Region) :
    ∀ (b a : List Region),
      ts.foldl
        (fun (acc : List Region × List Region) target =>
          if target.begin < sb then (target :: acc.1, acc.2)
          else if target.begin > se then (acc.1, acc.2 ++ [target])
          else acc)
        (b, a) =
      ((ts.filter (fun t => t.begin < sb)).reverse ++ b,
        a ++ ts.filter (fun t => t.begin > se)) := by
  induction ts with
  | nil => intro b a; simp
  | cons t ts ih =>
    intro b a
    by_cases h1 : t.begin < sb
    · have h2 : ¬ t.begin > se := by omega
      simp only [List.foldl_cons, if_pos h1, List.filter_cons]
      rw [ih (t :: b) a]
      simp [h1, h2]
    · by_cases h2 : t.begin > se
      · simp only [List.foldl_cons, if_neg h1, if_pos h2, List.filter_cons]
        rw [ih b (a ++ [t])]
        simp [h1, h2]
      · simp only [List.foldl_cons, if_neg h1, if_neg h2, List.filter_cons]
        rw [ih b a]
        simp [h1, h2]

/-- Flattened `zip_longest` is a permutation of the concatenation. -/
theorem interleave_perm (l1 l2 : List Region) :
    (interleave l1 l2).Perm (l1 ++ l2) := by
  induction l1 generalizing l2 with
  | nil => simp [interleave]
  | cons x xs ih =>
    cases l2 with
    | nil => simpa [interleave] using (ih []).cons x
    | cons y ys =>
      show (x :: y :: interleave xs ys).Perm (x :: (xs ++ y :: ys))
      exact ((ih ys).cons y).trans List.perm_middle.symm |>.cons x

/-- Concatenating the filters of two mutually exclusive predicates permutes
to the filter of their disjunction. -/
theorem filter_append_perm_or (p q : Region → Bool)
    (hpq : ∀ t, p t = true → q t = false) (ts : List Region) :
    (ts.filter p ++ ts.filter q).Perm (ts.filter (fun t => p t || q t)) := by
  induction ts with
  | nil => simp
  | cons t ts ih =>
    simp only [List.filter_cons]
    cases hp : p t
    · cases hq : q t
      · simpa [hp, hq] using ih
      · simp only [hp, hq, Bool.false_or, cond_true, cond_false]
        exact List.perm_middle.trans (ih.cons t)
    · have hq := hpq t hp
      simp only [hp, hq, Bool.true_or, cond_true, cond_false]
      exact ih.cons t

/-- C1: `interleave_jump_targets_from_cursor` splits the ordered match list
into the targets strictly before the selection's begin (nearest first, i.e.
in decreasing position order) and those strictly after its end (nearest
first, i.e. in increasing position order), drops the targets whose position
lies between begin and end inclusive, and returns the alternating
interleaving of the two sides; the result is a permutation of the non-dropped
matches. -/
theorem interleave_partition_spec (targets : List Region) (sel : Region)
    (hsorted : targets.Sorted (fun t u => t.begin ≤ u.begin)) :
    interleave_jump_targets_from_cursor targets sel =
      interleave ((targets.filter (fun t => t.begin < sel.begin)).reverse)
        (targets.filter (fun t => t.begin > sel.end_)) ∧
    ((targets.filter (fun t => t.begin < sel.begin)).reverse).Sorted
      (fun t u => u.begin ≤ t.begin) ∧
    (targets.filter (fun t => t.begin > sel.end_)).Sorted
      (fun t u => t.begin ≤ u.begin) ∧
    (interleave_jump_targets_from_cursor targets sel).Perm
      (targets.filter
        (fun t => !(decide (sel.begin ≤ t.begin) && decide (t.begin ≤ sel.end_)))) := by
  have hbe : sel.begin ≤ sel.end_ := Region.begin_le_end_ sel
  have heq : interleave_jump_targets_from_cursor targets sel =
      interleave ((targets.filter (fun t => t.begin < sel.begin)).reverse)
        (targets.filter (fun t => t.begin > sel.end_)) := by
    show interleave _ _ = _
    rw [foldl_split_eq sel.begin sel.end_ hbe targets [] []]
    simp
  refine ⟨heq, ?_, ?_, ?_⟩
  · unfold List.Sorted
    rw [List.pairwise_reverse]
    exact List.Pairwise.filter _ hsorted
  · exact List.Pairwise.filter _ hsorted
  · rw [heq]
    have h1 := interleave_perm
      ((targets.filter (fun t => t.begin < sel.begin)).reverse)
      (targets.filter (fun t => t.begin > sel.end_))
    have h2 : ((targets.filter (fun t => t.begin < sel.begin)).reverse ++
        targets.filter (fun t => t.begin > sel.end_)).Perm
        (targets.filter (fun t => t.begin < sel.begin) ++
          targets.filter (fun t => t.begin > sel.end_)) :=
      List.Perm.append_right _ (List.reverse_perm _)
    have h3 := filter_append_perm_or
      (fun t => decide (t.begin < sel.begin))
      (fun t => decide (t.begin > sel.end_))
      (fun t ht => by
        simp only [decide_eq_true_eq] at ht
        simp only [decide_eq_false_iff_not]
        omega)
      targets
    refine ((h1.trans h2).trans h3).trans ?_
    apply List.Perm.of_eq
    apply List.filter_congr
    intro t _
    simp only [Bool.or_eq_true, decide_eq_true_eq, Bool.not_eq_true,
      Bool.and_eq_true, Bool.not_and]
    by_cases hx : t.begin < sel.begin <;> by_cases hy : t.begin > sel.end_ <;>
      simp_all

/-- C1 witness at a concrete sorted match list and selection. -/
theorem interleave_partition_spec_witness :
    interleave_jump_targets_from_cursor
        [⟨1, 2⟩, ⟨3, 4⟩, ⟨5, 6⟩, ⟨8, 9⟩, ⟨11, 12⟩] ⟨6, 7⟩ =
      interleave
        ((([⟨1, 2⟩, ⟨3, 4⟩, ⟨5, 6⟩, ⟨8, 9⟩, ⟨11, 12⟩] : List Region).filter
          (fun t => t.begin < (⟨6, 7⟩ : Region).begin)).reverse)
        (([⟨1, 2⟩, ⟨3, 4⟩, ⟨5, 6⟩, ⟨8, 9⟩, ⟨11, 12⟩] : List Region).filter
          (fun t => t.begin > (⟨6, 7⟩ : Region).end_)) ∧
    ((([⟨1, 2⟩, ⟨3, 4⟩, ⟨5, 6⟩, ⟨8, 9⟩, ⟨11, 12⟩] : List Region).filter
        (fun t => t.begin < (⟨6, 7⟩ : Region).begin)).reverse).Sorted
      (fun t u => u.begin ≤ t.begin) ∧
    (([⟨1, 2⟩, ⟨3, 4⟩, ⟨5, 6⟩, ⟨8, 9⟩, ⟨11, 12⟩] : List Region).filter
        (fun t => t.begin > (⟨6, 7⟩ : Region).end_)).Sorted
      (fun t u => t.begin ≤ u.begin) ∧
    (interleave_jump_targets_from_cursor
        [⟨1, 2⟩, ⟨3, 4⟩, ⟨5, 6⟩, ⟨8, 9⟩, ⟨11, 12⟩] ⟨6, 7⟩).Perm
      (([⟨1, 2⟩, ⟨3, 4⟩, ⟨5, 6⟩, ⟨8, 9⟩, ⟨11, 12⟩] : List Region).filter
        (fun t => !(decide ((⟨6, 7⟩ : Region).begin ≤ t.begin) &&
          decide (t.begin ≤ (⟨6, 7⟩ : Region).end_)))) :=
  interleave_partition_spec [⟨1, 2⟩, ⟨3, 4⟩, ⟨5, 6⟩, ⟨8, 9⟩, ⟨11, 12⟩] ⟨6, 7⟩
    (by decide)

/-- The inner assignment loop pairs the placeholder characters with a prefix
of the remaining targets and leaves the rest. -/
theorem fillGroup_eq (chars : List Char) (ts : List Region) :
    fillGroup chars ts = (chars.zip ts, ts.drop chars.length) := by
  induction chars generalizing ts with
  | nil => simp [fillGroup]
  | cons c cs ih =>
    cases ts with
    | nil => simp [fillGroup]
    | cons t ts => simp [fillGroup, ih]

/-- The positions assigned in one group are the consumed prefix of the
remaining targets. -/
theorem map_snd_zip_take (l1 : List Char) (l2 : List Region) :
    (l1.zip l2).map Prod.snd = l2.take l1.length := by
  induction l1 generalizing l2 with
  | nil => simp
  | cons c cs ih =>
    cases l2 with
    | nil => simp
    | cons t ts => simp [ih]

/-- One grouping step in the ceiling-division count: removing `k` targets
(saturating at zero) drops the number of remaining groups by one. -/
theorem ceil_div_step (n k : Nat) (hk : 0 < k) (hn : 0 < n) :
    (n - k + k - 1) / k + 1 = (n + k - 1) / k := by
  rcases le_or_lt k n with h | h
  · have h1 : n - k + k - 1 = n - 1 := by omega
    have h2 : n + k - 1 = n - 1 + k := by omega
    rw [h1, h2, Nat.add_div_right _ hk]
  · have h1 : n - k + k - 1 = k - 1 := by omega
    have h2 : n + k - 1 = n - 1 + k := by omega
    rw [h1, h2, Nat.add_div_right _ hk]
    rw [Nat.div_eq_of_lt (by omega), Nat.div_eq_of_lt (by omega)]

/-- With a non-empty alphabet the grouping loop finishes within
`ts.length` iterations and the resulting groups flatten back to the input,
number `ceil(n/k)`, and are all full except possibly the last. -/
theorem groupsLoopFuel_spec (chars : List Char) (hne : chars ≠ []) :
    ∀ (fuel : Nat) (ts : List Region), ts.length ≤ fuel →
      ∃ gs, groupsLoopFuel chars fuel ts = some gs ∧
        (gs.map (fun g => g.map Prod.snd)).flatten = ts ∧
        gs.length = (ts.length + chars.length - 1) / chars.length ∧
        ∀ g ∈ gs.dropLast, g.length = chars.length := by
  have hk : 0 < chars.length := List.length_pos.mpr hne
  intro fuel
  induction fuel with
  | zero =>
    intro ts hts
    have hnil : ts = [] := List.eq_nil_of_length_eq_zero (by omega)
    subst hnil
    refine ⟨[], by simp [groupsLoopFuel], by simp, ?_, by simp⟩
    simp [Nat.div_eq_of_lt (show chars.length - 1 < chars.length by omega)]
  | succ fuel ih =>
    intro ts hts
    cases ts with
    | nil =>
      refine ⟨[], by simp [groupsLoopFuel], by simp, ?_, by simp⟩
      simp [Nat.div_eq_of_lt (show chars.length - 1 < chars.length by omega)]
    | cons t ts' =>
      have hrest_len : ((t :: ts').drop chars.length).length =
          (t :: ts').length - chars.length := by simp
      obtain ⟨gs', hgs', hjoin, hlen, hfull⟩ :=
        ih ((t :: ts').drop chars.length)
          (by simp at hts ⊢; omega)
      refine ⟨chars.zip (t :: ts') :: gs', ?_, ?_, ?_, ?_⟩
      · simp [groupsLoopFuel, fillGroup_eq, hgs']
      · simp only [List.map_cons, List.flatten_cons, map_snd_zip_take, hjoin,
          List.take_append_drop]
      · simp only [hlen, hrest_len, List.length_cons]
        exact ceil_div_step (ts'.length + 1) chars.length hk (by omega)
      · cases hgs : gs' with
        | nil => simp
        | cons g2 rest2 =>
          rw [hgs] at hfull hlen
          have hone : 1 ≤ (((t :: ts').drop chars.length).length +
              chars.length - 1) / chars.length := by
            rw [← hlen]; simp
          have hmk := (Nat.one_le_div_iff hk).mp hone
          have hkn : chars.length < (t :: ts').length := by
            rw [hrest_len] at hmk
            simp only [List.length_cons] at hmk ⊢
            omega
          intro g hg
          rw [List.dropLast_cons₂] at hg
          rcases List.mem_cons.mp hg with h | h
          · subst h
            rw [List.length_zip]
            exact Nat.min_eq_left (le_of_lt hkn)
          · exact hfull g h

/-- With an empty placeholder alphabet and at least one target the inner
loop assigns nothing, the index never advances, and no amount of fuel makes
the outer loop finish. -/
theorem groupsLoopFuel_empty_alphabet (ts : List Region) (hts : ts ≠ []) :
    ∀ fuel, groupsLoopFuel [] fuel ts = none := by
  intro fuel
  induction fuel with
  | zero => simp [groupsLoopFuel, hts]
  | succ fuel ih => simp [groupsLoopFuel, hts, fillGroup, ih]

/-- C2: with a non-empty alphabet of `k` distinct placeholder characters and
`n` interleaved matches, `create_jump_target_groups` yields `ceil(n/k)`
groups, every group except possibly the last holds exactly `k` entries, and
concatenating the groups' values in order reproduces the interleaved list —
so every match position lands in exactly one group. -/
theorem create_groups_partition (chars : List Char) (ts : List Region)
    (hne : chars ≠ []) (_hnd : chars.Nodup) :
    ∃ gs, create_jump_target_groups chars ts = some gs ∧
      gs.length = (ts.length + chars.length - 1) / chars.length ∧
      (∀ g ∈ gs.dropLast, g.length = chars.length) ∧
      (gs.map (fun g => g.map Prod.snd)).flatten = ts := by
  obtain ⟨gs, hgs, hjoin, hlen, hfull⟩ :=
    groupsLoopFuel_spec chars hne ts.length ts le_rfl
  exact ⟨gs, hgs, hlen, hfull, hjoin⟩

/-- C2 witness: 3 matches over the 2-character alphabet `"ab"`. -/
theorem create_groups_partition_witness :
    ∃ gs, create_jump_target_groups ['a', 'b'] [⟨1, 2⟩, ⟨5, 6⟩, ⟨9, 10⟩] =
        some gs ∧
      gs.length = (([⟨1, 2⟩, ⟨5, 6⟩, ⟨9, 10⟩] : List Region).length +
        (['a', 'b'] : List Char).length - 1) / (['a', 'b'] : List Char).length ∧
      (∀ g ∈ gs.dropLast, g.length = (['a', 'b'] : List Char).length) ∧
      (gs.map (fun g => g.map Prod.snd)).flatten = [⟨1, 2⟩, ⟨5, 6⟩, ⟨9, 10⟩] :=
  create_groups_partition ['a', 'b'] [⟨1, 2⟩, ⟨5, 6⟩, ⟨9, 10⟩]
    (by decide) (by decide)

/-- C9: the grouping loop terminates (some fuel suffices, and in particular
the `n` units `create_jump_target_groups` supplies) exactly when the
placeholder alphabet is non-empty or there are no matches; with an empty
alphabet and at least one match, no fuel bound is ever enough. -/
theorem create_groups_termination (chars : List Char) (ts : List Region) :
    ((∃ fuel gs, groupsLoopFuel chars fuel ts = some gs) ↔
      chars ≠ [] ∨ ts = []) ∧
    (create_jump_target_groups chars ts = none ↔ chars = [] ∧ ts ≠ []) ∧
    (chars = [] → ts ≠ [] → ∀ fuel, groupsLoopFuel chars fuel ts = none) := by
  refine ⟨⟨?_, ?_⟩, ⟨?_, ?_⟩, ?_⟩
  · rintro ⟨fuel, gs, hgs⟩
    by_contra hcon
    push_neg at hcon
    obtain ⟨hchars, hts⟩ := hcon
    subst hchars
    rw [groupsLoopFuel_empty_alphabet ts hts fuel] at hgs
    exact Option.noConfusion hgs
  · rintro (hne | rfl)
    · obtain ⟨gs, hgs, -⟩ := groupsLoopFuel_spec chars hne ts.length ts le_rfl
      exact ⟨ts.length, gs, hgs⟩
    · exact ⟨0, [], by simp [groupsLoopFuel]⟩
  · intro hnone
    by_contra hcon
    push_neg at hcon
    rcases eq_or_ne chars [] with rfl | hne
    · rcases eq_or_ne ts [] with rfl | hts
      · simp [create_jump_target_groups, groupsLoopFuel] at hnone
      · exact hts (hcon rfl)
    · obtain ⟨gs, hgs, -⟩ := groupsLoopFuel_spec chars hne ts.length ts le_rfl
      rw [create_jump_target_groups, hgs] at hnone
      exact Option.noConfusion hnone
  · rintro ⟨rfl, hts⟩
    exact groupsLoopFuel_empty_alphabet ts hts ts.length
  · rintro rfl hts fuel
    exact groupsLoopFuel_empty_alphabet ts hts fuel

/-- From the initial index `-1`, the first `k ≤ len` calls of `next()` walk
the index up to `k - 1` without ever wrapping. -/
theorem stepNextN_from_init (gs : List JumpGroup) :
    ∀ k, k ≤ gs.length → stepNextN ⟨gs, -1⟩ k = ⟨gs, (k : Int) - 1⟩ := by
  intro k
  induction k with
  | zero => intro _; rfl
  | succ k ih =>
    intro hk
    rw [stepNextN, ih (by omega)]
    simp only [GroupCursor.next]
    have hcond : ¬((gs.length : Int) ≤ (k : Int) - 1 + 1 ∨ (k : Int) - 1 + 1 < 0) := by
      push_neg
      constructor <;> omega
    simp only [if_neg hcond]
    congr 1
    omega

/-- C3 counterexample: with the two distinct groups `{a: (1,2)}` and
`{b: (5,6)}`, the `len(groups)` = 2nd call of `next()` from the initial
state returns the second group, not the first. -/
theorem next_len_calls_counterexample :
    nthNextResult ⟨[[('a', ⟨1, 2⟩)], [('b', ⟨5, 6⟩)]], -1⟩ 1 ≠
      ([[('a', ⟨1, 2⟩)], [('b', ⟨5, 6⟩)]] : List JumpGroup)[0]? := by decide

/-- C3 amended: from the initial cursor state (index `-1`), the `(k+1)`-th
call of `next()` returns group `k` for every `k < len(groups)` — so the
`len(groups)`-th call returns the LAST group — and it is the
`(len(groups)+1)`-th call that wraps and returns the first group again. -/
theorem next_wraps_after_len_plus_one (gs : List JumpGroup) (hne : gs ≠ []) :
    (∀ k, k < gs.length → nthNextResult ⟨gs, -1⟩ k = gs[k]?) ∧
    nthNextResult ⟨gs, -1⟩ gs.length = some (gs.head hne) := by
  constructor
  · intro k hk
    unfold nthNextResult
    rw [stepNextN_from_init gs k (by omega)]
    unfold GroupCursor.next
    have hcond : ¬((gs.length : Int) ≤ (k : Int) - 1 + 1 ∨ (k : Int) - 1 + 1 < 0) := by
      push_neg
      constructor <;> omega
    simp only [if_neg hcond]
    congr 1
    omega
  · unfold nthNextResult
    rw [stepNextN_from_init gs gs.length le_rfl]
    unfold GroupCursor.next
    have hcond : (gs.length : Int) ≤ (gs.length : Int) - 1 + 1 ∨
        (gs.length : Int) - 1 + 1 < 0 := Or.inl (by omega)
    simp only [if_pos hcond, Int.toNat_zero]
    cases gs with
    | nil => exact absurd rfl hne
    | cons g gs => simp

/-- C3 amended witness: three groups; the 4th call returns the first. -/
theorem next_wraps_after_len_plus_one_witness :
    (∀ k, k < ([[('a', ⟨1, 2⟩)], [('b', ⟨5, 6⟩)], [('c', ⟨9, 10⟩)]] :
        List JumpGroup).length →
      nthNextResult ⟨[[('a', ⟨1, 2⟩)], [('b', ⟨5, 6⟩)], [('c', ⟨9, 10⟩)]], -1⟩ k =
        ([[('a', ⟨1, 2⟩)], [('b', ⟨5, 6⟩)], [('c', ⟨9, 10⟩)]] :
          List JumpGroup)[k]?) ∧
    nthNextResult ⟨[[('a', ⟨1, 2⟩)], [('b', ⟨5, 6⟩)], [('c', ⟨9, 10⟩)]], -1⟩
        ([[('a', ⟨1, 2⟩)], [('b', ⟨5, 6⟩)], [('c', ⟨9, 10⟩)]] :
          List JumpGroup).length =
      some (([[('a', ⟨1, 2⟩)], [('b', ⟨5, 6⟩)], [('c', ⟨9, 10⟩)]] :
        List JumpGroup).head (by decide)) :=
  next_wraps_after_len_plus_one
    [[('a', ⟨1, 2⟩)], [('b', ⟨5, 6⟩)], [('c', ⟨9, 10⟩)]] (by decide)

/-- C4: `previous()` decrements the index and on underflow or overflow wraps
to the last index, returning the group at the new index; in particular, one
call from the initial state (index `-1`) returns the last group, and on a
non-empty group list the returned group always exists. -/
theorem previous_wraps_to_last (gs : List JumpGroup) (hne : gs ≠ [])
    (i : Int) :
    (GroupCursor.previous ⟨gs, -1⟩).2 = some (gs.getLast hne) ∧
    (GroupCursor.previous ⟨gs, i⟩).1.jump_target_group_index =
      (if i - 1 < 0 ∨ (gs.length : Int) ≤ i - 1 then (gs.length : Int) - 1
        else i - 1) ∧
    (GroupCursor.previous ⟨gs, i⟩).2 =
      gs[((GroupCursor.previous ⟨gs, i⟩).1.jump_target_group_index).toNat]? ∧
    (GroupCursor.previous ⟨gs, i⟩).2 ≠ none := by
  have hlen : 0 < gs.length := List.length_pos.mpr hne
  refine ⟨?_, rfl, rfl, ?_⟩
  · unfold GroupCursor.previous
    have hcond : (-1 : Int) - 1 < 0 ∨ (gs.length : Int) ≤ (-1 : Int) - 1 :=
      Or.inl (by omega)
    simp only [if_pos hcond]
    have htn : ((gs.length : Int) - 1).toNat = gs.length - 1 := by omega
    rw [htn, List.getElem?_eq_getElem (by omega)]
    congr 1
    exact (List.getLast_eq_getElem gs hne).symm
  · unfold GroupCursor.previous
    by_cases hcond : i - 1 < 0 ∨ (gs.length : Int) ≤ i - 1
    · simp only [if_pos hcond]
      have htn : ((gs.length : Int) - 1).toNat = gs.length - 1 := by omega
      rw [htn, List.getElem?_eq_getElem (by omega)]
      exact Option.noConfusion
    · simp only [if_neg hcond]
      push_neg at hcond
      have htn : (i - 1).toNat < gs.length := by omega
      rw [List.getElem?_eq_getElem htn]
      exact Option.noConfusion

/-- C4 witness: two groups, `previous()` from the initial state returns the
second (last) group, and from index 0 it wraps to the last index 1. -/
theorem previous_wraps_to_last_witness :
    (GroupCursor.previous ⟨[[('a', ⟨1, 2⟩)], [('b', ⟨5, 6⟩)]], -1⟩).2 =
      some (([[('a', ⟨1, 2⟩)], [('b', ⟨5, 6⟩)]] : List JumpGroup).getLast
        (by decide)) ∧
    (GroupCursor.previous ⟨[[('a', ⟨1, 2⟩)], [('b', ⟨5, 6⟩)]], (0 : Int)⟩).1.jump_target_group_index =
      (if (0 : Int) - 1 < 0 ∨
          (([[('a', ⟨1, 2⟩)], [('b', ⟨5, 6⟩)]] : List JumpGroup).length : Int) ≤
            (0 : Int) - 1 then
        (([[('a', ⟨1, 2⟩)], [('b', ⟨5, 6⟩)]] : List JumpGroup).length : Int) - 1
      else (0 : Int) - 1) ∧
    (GroupCursor.previous ⟨[[('a', ⟨1, 2⟩)], [('b', ⟨5, 6⟩)]], (0 : Int)⟩).2 =
      ([[('a', ⟨1, 2⟩)], [('b', ⟨5, 6⟩)]] :
        List JumpGroup)[((GroupCursor.previous
          ⟨[[('a', ⟨1, 2⟩)], [('b', ⟨5, 6⟩)]], (0 : Int)⟩).1.jump_target_group_index).toNat]? ∧
    (GroupCursor.previous ⟨[[('a', ⟨1, 2⟩)], [('b', ⟨5, 6⟩)]], (0 : Int)⟩).2 ≠
      none :=
  previous_wraps_to_last [[('a', ⟨1, 2⟩)], [('b', ⟨5, 6⟩)]] (by decide) 0

/-- C5 (code bug): for an ordinary (non-`enter`) target character,
`determine_re_flags` emits the case-INSENSITIVE regex flag `(?i)` exactly
when the `case_sensitive` setting is true — the inverse of what the setting
name (and the claim) say. -/
theorem determine_re_flags_inverted :
    determine_re_flags true "a" = "(?i)" ∧
    determine_re_flags false "a" = "" ∧
    (∀ (cs : Bool) (c : String), c ≠ "enter" →
      (determine_re_flags cs c = "(?i)" ↔ cs = true)) := by
  refine ⟨rfl, rfl, ?_⟩
  intro cs c hc
  have hbeq : (c == "enter") = false := beq_eq_false_iff_ne.mpr hc
  cases cs with
  | false => simp [determine_re_flags, hbeq]
  | true => simp [determine_re_flags, hbeq]

/-- C5 witness: with `case_sensitive = true` and target `"b"` the flag
string is the case-insensitivity flag. -/
theorem determine_re_flags_inverted_witness :
    determine_re_flags true "b" = "(?i)" :=
  (determine_re_flags_inverted.2.2 true "b" (by decide)).mpr rfl

/-- C6 counterexample: on a zero-match run (text `"xyz"`, target `'a'`, so
the generator holds zero groups) the module globals ARE mutated —
`SELECT_TEXT` is overwritten from `true` to the new request's `false` (and
the generator global is replaced) before the emptiness check, refuting
"no session state is mutated". -/
theorem run_zero_matches_counterexample :
    (EasyMotionCommand.run viewNoMatches 'a' false ['a', 'b'] "string" true
        globalsBefore).map
      (fun out => (out.globals.select_text,
        out.globals.jump_group_generator.map
          (fun generator => generator.jump_target_groups))) =
      some (false, some []) ∧
    globalsBefore.select_text = true := by decide

/-- C6 amended: on a zero-match run, `EasyMotionCommand.run` emits the
"unable to find" status notification, leaves the view's `easy_motion_mode`
and `command_mode` flags untouched, and never dispatches `show_jump_group`
(the session does not start) — but the module-level globals
(`JUMP_GROUP_GENERATOR`, `SELECT_TEXT`, `JUMP_TARGET_SCOPE`) are still
overwritten, because those assignments precede the emptiness check. -/
theorem run_zero_matches_aborts (view : ViewModel) (character : Char)
    (select_text : Bool) (placeholder_chars : List Char)
    (jump_target_scope : String) (case_sensitive : Bool) (g : GlobalState)
    (generator : JumpGroupGenerator)
    (hgen : JumpGroupGenerator.init view character placeholder_chars
      case_sensitive = some generator)
    (hzero : generator.jump_target_groups = []) :
    EasyMotionCommand.run view character select_text placeholder_chars
        jump_target_scope case_sensitive g =
      some ⟨["EasyMotion: Jump to " ++ character.toString,
          "EasyMotion: unable to find any instances of " ++ character.toString
            ++ " in visible region"],
        { g with
            jump_group_generator := some generator
            select_text := select_text
            jump_target_scope := jump_target_scope },
        view, false⟩ := by
  unfold EasyMotionCommand.run
  rw [hgen]
  simp [hzero]

/-- C6 amended witness: the concrete zero-match run on `"xyz"`. -/
theorem run_zero_matches_aborts_witness :
    EasyMotionCommand.run viewNoMatches 'a' false ['a', 'b'] "string" true
        globalsBefore =
      some ⟨["EasyMotion: Jump to " ++ 'a'.toString,
          "EasyMotion: unable to find any instances of " ++ 'a'.toString
            ++ " in visible region"],
        { globalsBefore with
            jump_group_generator := some ⟨true, ['a', 'b'], [], [], [], -1⟩
            select_text := false
            jump_target_scope := "string" },
        viewNoMatches, false⟩ :=
  run_zero_matches_aborts viewNoMatches 'a' false ['a', 'b'] "string" true
    globalsBefore ⟨true, ['a', 'b'], [], [], [], -1⟩ (by decide) rfl

/-- C7: resolving a confirmed label against the displayed group — if the
label is absent from the group there is no winning selection and no
jump command is dispatched (the cursor is not moved); if it is present and
text-selection mode is off, the winning selection is the region collapsed to
the matched position's begin offset, and the dispatched jump command carries
that single point. -/
theorem winning_selection_resolution (g : JumpGroup) (sel : List Region)
    (select_text : Bool) (c : Char) :
    (g.lookup c = none →
      winning_selection_from g select_text sel c = none ∧
      jump_to_winning_selection (winning_selection_from g select_text sel c) =
        none) ∧
    (∀ wr, g.lookup c = some wr →
      winning_selection_from g false sel c = some ⟨wr.begin, wr.begin⟩ ∧
      (⟨wr.begin, wr.begin⟩ : Region).begin =
        (⟨wr.begin, wr.begin⟩ : Region).end_ ∧
      jump_to_winning_selection (winning_selection_from g false sel c) =
        some (wr.begin, wr.begin)) := by
  constructor
  · intro h
    unfold winning_selection_from
    rw [h]
    exact ⟨rfl, rfl⟩
  · intro wr h
    unfold winning_selection_from
    rw [h]
    refine ⟨rfl, ?_, ?_⟩
    · simp [Region.begin, Region.end_]
    · simp [jump_to_winning_selection, Region.begin, Region.end_]

/-- C7 witness: group `{a: (3,4)}`; label `'z'` is absent (no-op), label
`'a'` is present and yields the collapsed point 3. -/
theorem winning_selection_resolution_witness :
    (winning_selection_from [('a', ⟨3, 4⟩)] false [⟨0, 0⟩] 'z' = none ∧
      jump_to_winning_selection
        (winning_selection_from [('a', ⟨3, 4⟩)] false [⟨0, 0⟩] 'z') = none) ∧
    jump_to_winning_selection
        (winning_selection_from [('a', ⟨3, 4⟩)] false [⟨0, 0⟩] 'a') =
      some (3, 3) := by
  constructor
  · exact (winning_selection_resolution [('a', ⟨3, 4⟩)] [⟨0, 0⟩] false 'z').1
      (by decide)
  · have h := (winning_selection_resolution [('a', ⟨3, 4⟩)] [⟨0, 0⟩] false
      'a').2 ⟨3, 4⟩ (by decide)
    simpa using h.2.2

/-- C8: the end-to-end scenario — visible text `"cat bat cat"`, target
`'a'`, alphabet `"ab"`, cursor collapsed at offset 0, no folds: matches at
offsets 1, 5, 9; empty before-list and after-list `[1, 5, 9]`; groups
`{a: 1, b: 5}` and `{a: 9}`; the first `next()` from the initial state
returns `{a: 1, b: 5}`; confirming `'b'` yields the collapsed selection at
offset 5. -/
theorem cat_bat_cat_scenario :
    find_all_jump_targets_in_visible_region "cat bat cat".data 0 [] true 'a' =
      [⟨1, 2⟩, ⟨5, 6⟩, ⟨9, 10⟩] ∧
    ([⟨1, 2⟩, ⟨5, 6⟩, ⟨9, 10⟩] : List Region).filter
        (fun t => t.begin < (⟨0, 0⟩ : Region).begin) = [] ∧
    ([⟨1, 2⟩, ⟨5, 6⟩, ⟨9, 10⟩] : List Region).filter
        (fun t => t.begin > (⟨0, 0⟩ : Region).end_) =
      [⟨1, 2⟩, ⟨5, 6⟩, ⟨9, 10⟩] ∧
    interleave_jump_targets_from_cursor [⟨1, 2⟩, ⟨5, 6⟩, ⟨9, 10⟩] ⟨0, 0⟩ =
      [⟨1, 2⟩, ⟨5, 6⟩, ⟨9, 10⟩] ∧
    create_jump_target_groups ['a', 'b'] [⟨1, 2⟩, ⟨5, 6⟩, ⟨9, 10⟩] =
      some [[('a', ⟨1, 2⟩), ('b', ⟨5, 6⟩)], [('a', ⟨9, 10⟩)]] ∧
    (GroupCursor.next
        ⟨[[('a', ⟨1, 2⟩), ('b', ⟨5, 6⟩)], [('a', ⟨9, 10⟩)]], -1⟩).2 =
      some [('a', ⟨1, 2⟩), ('b', ⟨5, 6⟩)] ∧
    winning_selection_from [('a', ⟨1, 2⟩), ('b', ⟨5, 6⟩)] false [⟨0, 0⟩] 'b' =
      some ⟨5, 5⟩ := by decide

/-- C10: `ExpandTabsOnSave.on_pre_save` runs the `expand_tabs` command
exactly when the `expand_tabs_on_save` setting compares equal to the
integer 1 under Python equality — the integer `1` or the boolean `True` —
and runs nothing in every other case, including an absent setting and the
string `"1"`. -/
theorem on_pre_save_expand_tabs_iff (v : SettingValue) :
    (ExpandTabsOnSave.on_pre_save v = ["expand_tabs"] ↔
      v = .pyint 1 ∨ v = .pybool true) ∧
    (ExpandTabsOnSave.on_pre_save v = ["expand_tabs"] ∨
      ExpandTabsOnSave.on_pre_save v = []) ∧
    ExpandTabsOnSave.on_pre_save .absent = [] ∧
    ExpandTabsOnSave.on_pre_save (.pystr "1") = [] := by
  refine ⟨?_, ?_, rfl, rfl⟩
  · rcases v with _ | b | n | s
    · simp [ExpandTabsOnSave.on_pre_save, pyEqOne]
    · cases b <;> simp [ExpandTabsOnSave.on_pre_save, pyEqOne]
    · by_cases hn : n = 1 <;>
        simp [ExpandTabsOnSave.on_pre_save, pyEqOne, hn]
    · simp [ExpandTabsOnSave.on_pre_save, pyEqOne]
  · unfold ExpandTabsOnSave.on_pre_save
    by_cases h : pyEqOne v = true <;> simp [h]

/-- C9 witness: with the empty alphabet and one remaining match, no amount
of fuel makes the grouping loop finish. -/
theorem create_groups_termination_witness :
    groupsLoopFuel [] 5 [⟨0, 1⟩] = none :=
  (create_groups_termination [] [⟨0, 1⟩]).2.2 rfl (by decide) 5
